import Mathlib

/-!
Verification development for the tonic.ts music-theory library.

The TypeScript sources are shallowly embedded below: pure functions become
Lean functions over `Int`/`Nat`/`List Char`, JS regular-expression matches
become hand-rolled deterministic scanners over `List Char`, fallible code
returns `Except String`, and the process-wide registries (the chord-class
map and the scale table) become association lists built by the same
registration code. JS `%` on numbers is truncating remainder, embedded as
`Int.mod`; `Math.floor(a / b)` is `Int.fdiv`.

Several classes of the library (ChordClass.ts, Interval.ts, PitchLike.ts,
PitchClass's value-object class) are referenced by the sources at hand but
their own files are absent; those operations are modelled from the spec and
are marked `Modelled from the spec:` in their doc comments.
-/

/-- Decidable equality for `Except`, used to settle concrete runs of the
embedded fallible operations. -/
instance {ε α : Type} [DecidableEq ε] [DecidableEq α] : DecidableEq (Except ε α) := fun a b =>
  match a, b with
  | .error x, .error y =>
    if h : x = y then isTrue (by rw [h]) else isFalse (by intro hh; cases hh; exact h rfl)
  | .error _, .ok _ => isFalse (by intro hh; cases hh)
  | .ok _, .error _ => isFalse (by intro hh; cases hh)
  | .ok x, .ok y =>
    if h : x = y then isTrue (by rw [h]) else isFalse (by intro hh; cases hh; exact h rfl)

/-- Apostrophe character (octave-raising mark in Helmholtz notation). -/
def apoChar : Char := Char.ofNat 39

/-- Flat sign. -/
def flatChar : Char := '♭'

/-- Embeds AccidentalValues from lib/accidentals.ts: accidental character to
semitone offset; `none` for non-accidental characters. -/
def accidentalValue? (c : Char) : Option Int :=
  if c = '#' then some 1
  else if c = '♯' then some 1
  else if c = 'b' then some (-1)
  else if c = '♭' then some (-1)
  else if c = '𝄪' then some 2
  else if c = '𝄫' then some (-2)
  else none

/-- True when the character is in the accidental class `[#♯b♭𝄪𝄫]`. -/
def isAccidentalChar (c : Char) : Bool := (accidentalValue? c).isSome

/-- Semitone value of an accidental character (0 when not an accidental;
only applied to characters the scanners have already validated). -/
def accVal (c : Char) : Int := (accidentalValue? c).getD 0

/-- Sum of the accidental values of a character list, in order. -/
def sumAccs (l : List Char) : Int := (l.map accVal).sum

/-- SharpNoteNames from PitchClass.ts. -/
def sharpNoteNames : List String :=
  ["C", "C♯", "D", "D♯", "E", "F", "F♯", "G", "G♯", "A", "A♯", "B"]

/-- FlatNoteNames from PitchClass.ts. -/
def flatNoteNames : List String :=
  ["C", "D♭", "D", "E♭", "E", "F", "G♭", "G", "A♭", "A", "B♭", "B"]

/-- NoteNames = SharpNoteNames. -/
def noteNames : List String := sharpNoteNames

/-- The regex letter class `[A-G]` with the `i` flag: A–G in either case. -/
def isNatLetter (c : Char) : Bool :=
  (('A' ≤ c && c ≤ 'G') || ('a' ≤ c && c ≤ 'g'))

/-- SharpNoteNames.indexOf(letter.toUpperCase()): index of the natural
letter in the sharp-name table (C=0, D=2, E=4, F=5, G=7, A=9, B=11). -/
def letterIndex (c : Char) : Int :=
  (sharpNoteNames.findIdx (fun s => s == String.singleton c.toUpper) : Int)

/-- normalizePitchClass from PitchClass.ts: `((pc % 12) + 12) % 12` with JS
truncating `%`, embedded as `Int.tmod`. -/
def normalizePitchClass (pc : Int) : Int := ((pc.tmod 12) + 12).tmod 12

/-- Scan a nonempty all-digit suffix as a decimal number (the `(\d+)$`
group plus JS `Number`). `none` if empty or a non-digit occurs. -/
def parseDigits (l : List Char) : Option Nat :=
  if l.isEmpty then none
  else if l.all Char.isDigit then
    some (l.foldl (fun acc c => 10 * acc + (c.toNat - '0'.toNat)) 0)
  else none

/-- Message of the scientific-parse error. -/
def sciErrMsg (name : String) : String :=
  "“" ++ name ++ "” is not in scientific notation"

/-- Embeds pitchFromScientificNotation: match
`^([A-G])([#♯b♭𝄪𝄫]*)(\d+)$/i`, then value = letter index
+ 12 * (1 + octave) + summed accidentals. -/
def pitchFromScientific (name : String) : Except String Int :=
  match name.toList with
  | c :: rest =>
    if isNatLetter c then
      let (accs, r1) := rest.span isAccidentalChar
      match parseDigits r1 with
      | some octave => .ok (letterIndex c + 12 * (1 + (octave : Int)) + sumAccs accs)
      | none => .error (sciErrMsg name)
    else .error (sciErrMsg name)
  | [] => .error (sciErrMsg name)

/-- getPitchClassName: NoteNames[pitchClass]. -/
def getPitchClassName (pc : Int) : String := noteNames.getD pc.toNat ""

/-- Embeds pitchToScientificNotation: octave = Math.floor(midi / 12) - 1,
name = NoteNames[normalize(midi)] followed by the octave number. -/
def pitchToScientific (midiNumber : Int) : String :=
  getPitchClassName (normalizePitchClass midiNumber) ++ toString (midiNumber.fdiv 12 - 1)

/-- Message of the pitch-class-parse error. -/
def pcErrMsg (name : String) : String :=
  "“" ++ name ++ "” is not a pitch class name"

/-- Core of parsePitchClass on an exploded string: `^([A-G])([#♯b♭𝄪𝄫]*)$/i`,
value = letter index + summed accidentals, normalized unless `normal = false`. -/
def parsePCCore (c : Char) (rest l : List Char) (normal : Bool) : Except String Int :=
  if isNatLetter c then
    if ((rest.span isAccidentalChar).2).isEmpty then
      let v := letterIndex c + sumAccs (rest.span isAccidentalChar).1
      .ok (if normal then normalizePitchClass v else v)
    else .error (pcErrMsg (String.mk l))
  else .error (pcErrMsg (String.mk l))

/-- Dispatch of `parsePCCore` on the first character. -/
def parsePCList (l : List Char) (normal : Bool) : Except String Int :=
  match l with
  | c :: rest => parsePCCore c rest l normal
  | [] => .error (pcErrMsg (String.mk l))

/-- Embeds parsePitchClass from PitchClass.ts. -/
def parsePitchClass (name : String) (normal : Bool := true) : Except String Int :=
  parsePCList name.toList normal

/-- Message of the Helmholtz-parse error. -/
def helmErrMsg (name : String) : String :=
  "“" ++ name ++ "” is not in Helmholtz notation"

/-- The JS test `s === s.toUpperCase()` on the pitch-class portion: every
character is fixed by upper-casing (for the letters and accidental
characters involved, JS and Lean upper-case identically). -/
def allUpper (l : List Char) : Bool := l.all (fun c => c.toUpper == c)

/-- Embeds pitchFromHelmholtzNotation: match
`^([A-G][#♯b♭𝄪𝄫]*)(,*)('*)$/i`; octave = 4 - (pitch-class portion is its
own upper-casing ? 1 : 0) - #commas + #apostrophes; value = 12 * octave +
unnormalized pitch class of the portion. -/
def helmholtzCore (c : Char) (rest : List Char) (name : String) : Except String Int :=
  if isNatLetter c then
    let accs := (rest.span isAccidentalChar).1
    let r1 := (rest.span isAccidentalChar).2
    let commas := (r1.span (fun ch => ch == ',')).1
    let r2 := (r1.span (fun ch => ch == ',')).2
    let apos := (r2.span (fun ch => ch == apoChar)).1
    let r3 := (r2.span (fun ch => ch == apoChar)).2
    if r3.isEmpty then
      match parsePCList (c :: accs) false with
      | .ok pcNum =>
        let u : Int := if allUpper (c :: accs) then 1 else 0
        let octave : Int := 4 - u - (commas.length : Int) + (apos.length : Int)
        .ok (12 * octave + pcNum)
      | .error e => .error e
    else .error (helmErrMsg name)
  else .error (helmErrMsg name)

/-- Dispatch of `helmholtzCore` on the first character. -/
def pitchFromHelmholtz (name : String) : Except String Int :=
  match name.toList with
  | c :: rest => helmholtzCore c rest name
  | [] => .error (helmErrMsg name)

/-- Embeds the Pitch value object (midi number plus stored display name). -/
structure Pitch where
  midiNumber : Int
  name : String
deriving DecidableEq

/-- Pitch constructor's name fallback: `name || pitchToScientificNotation(...)`. -/
def Pitch.make (midiNumber : Int) (name : String := "") : Pitch :=
  ⟨midiNumber, if name = "" then pitchToScientific midiNumber else name⟩

/-- Embeds Pitch.fromString: scientific when the input has a digit, else
Helmholtz; the parsed input string is stored as the name. -/
def Pitch.fromString (name : String) : Except String Pitch :=
  (if name.toList.any Char.isDigit
   then pitchFromScientific name
   else pitchFromHelmholtz name).map (fun m => Pitch.make m name)

/-- Pitch.toString returns the stored name. -/
def Pitch.toStr (p : Pitch) : String := p.name

/-- Embeds the ChordClass value object: canonical name, full name,
abbreviation list, and the interval pattern in semitones (Interval.ts is
absent from the sources; per the spec an Interval is its integer semitone
count, so interval sequences are embedded as `List Int`). -/
structure ChordClass where
  name : String
  fullName : String
  abbrs : List String
  intervals : List Int
deriving DecidableEq

/-- One row of the raw built-in chord table in chord.ts. -/
structure RawChordEntry where
  name : String
  abbrs : List String
  intervals : String
deriving DecidableEq

/-- The raw built-in chord table (chord.ts, chordClassArray literal). -/
def rawChordTable : List RawChordEntry :=
  [⟨"Major", ["", "M"], "047"⟩,
   ⟨"Minor", ["m"], "037"⟩,
   ⟨"Augmented", ["+", "aug"], "048"⟩,
   ⟨"Diminished", ["°", "dim"], "036"⟩,
   ⟨"Sus2", ["sus2"], "027"⟩,
   ⟨"Sus4", ["sus4"], "057"⟩,
   ⟨"Dominant 7th", ["7", "dom7"], "047t"⟩,
   ⟨"Augmented 7th", ["+7", "7aug"], "048t"⟩,
   ⟨"Diminished 7th", ["°7", "dim7"], "0369"⟩,
   ⟨"Major 7th", ["maj7"], "047e"⟩,
   ⟨"Minor 7th", ["min7"], "037t"⟩,
   ⟨"Dominant 7b5", ["7b5"], "046t"⟩,
   ⟨"Minor 7th b5", ["ø", "Ø", "m7b5"], "036t"⟩,
   ⟨"Diminished Maj 7th", ["°Maj7"], "036e"⟩,
   ⟨"Minor-Major 7th", ["min/maj7", "min(maj7)"], "037e"⟩,
   ⟨"6th", ["6", "M6", "M6", "maj6"], "0479"⟩,
   ⟨"Minor 6th", ["m6", "min6"], "0379"⟩]

/-- JS `s.replace(pat, repl)` with a plain-string pattern, or with the
`(?!$)` lookahead when `notEnd` is true: replace the first occurrence of
`pat` (skipping, when `notEnd`, an occurrence that ends exactly at the end
of the string). -/
def replaceFirstAux (pat repl : List Char) (notEnd : Bool) : List Char → List Char
  | [] => []
  | c :: rest =>
    if pat.isPrefixOf (c :: rest) && (!notEnd || pat.length < (c :: rest).length) then
      repl ++ (c :: rest).drop pat.length
    else c :: replaceFirstAux pat repl notEnd rest

/-- String-level wrapper for `replaceFirstAux`. -/
def replaceFirst (s pat repl : String) (notEnd : Bool := false) : String :=
  String.mk (replaceFirstAux pat.toList repl.toList notEnd s.toList)

/-- The chord-name canonicalization chain in chord.ts:
`.replace(/Major(?!$)/, 'Maj').replace(/Minor(?!$)/, 'Min')
.replace('Dominant', 'Dom').replace('Diminished', 'Dim')`. -/
def canonicalChordName (name : String) : String :=
  replaceFirst
    (replaceFirst
      (replaceFirst (replaceFirst name "Major" "Maj" true) "Minor" "Min" true)
      "Dominant" "Dom")
    "Diminished" "Dim"

/-- Interval-string decoding in chord.ts: `t` is 10, `e` is 11, a digit is
its value. -/
def charSemitones (c : Char) : Int :=
  if c = 't' then 10
  else if c = 'e' then 11
  else (c.toNat - '0'.toNat : Int)

/-- Embeds the chordClassArray construction: canonicalize the name, keep
the raw name as fullName, decode the interval characters. -/
def chordClassArray : List ChordClass :=
  rawChordTable.map (fun e =>
    { name := canonicalChordName e.name
      fullName := e.name
      abbrs := e.abbrs
      intervals := e.intervals.toList.map charSemitones })

/-- The comma-joined semitone fingerprint used as a registry key:
`intervals.map(i => i.semitones).join(',')`. -/
def fingerprintKey (intervals : List Int) : String :=
  String.intercalate "," (intervals.map toString)

/-- JS `Map.set`: overwrite the entry with the same key, else append. -/
def mapSet (m : List (String × ChordClass)) (k : String) (v : ChordClass) :
    List (String × ChordClass) :=
  if m.any (fun p => p.1 == k) then
    m.map (fun p => if p.1 == k then (k, v) else p)
  else m ++ [(k, v)]

/-- JS `Map.get`. -/
def mapGet? (m : List (String × ChordClass)) (k : String) : Option ChordClass :=
  (m.find? (fun p => p.1 == k)).map (fun p => p.2)

/-- The alias-key list a ChordClass is registered under (order as in
ChordClassAccessor.addChord): name, full name, abbreviations, fingerprint. -/
def chordKeys (cc : ChordClass) : List String :=
  [cc.name, cc.fullName] ++ cc.abbrs ++ [fingerprintKey cc.intervals]

/-- Embeds ChordClassAccessor.addChord: insert the ChordClass under every
truthy key (the `if (key)` guard skips the empty string). -/
def addChord (m : List (String × ChordClass)) (cc : ChordClass) :
    List (String × ChordClass) :=
  (chordKeys cc).foldl (fun m k => if k = "" then m else mapSet m k cc) m

/-- The global chord registry after initialization:
`chordClassArray.forEach(ChordClassAccessor.addChord)`. -/
def chordMap : List (String × ChordClass) := chordClassArray.foldl addChord []

/-- Modelled from the spec: ChordClass.fromString (ChordClass.ts is absent
from the sources) — exact lookup by name, full name, or abbreviation in the
single global registry; fails with an unknown-chord-name error if absent. -/
def ChordClass.fromString (name : String) : Except String ChordClass :=
  match mapGet? chordMap name with
  | some cc => .ok cc
  | none => .error ("unknown chord name “" ++ name ++ "”")

/-- Modelled from the spec: ChordClass.fromIntervals (ChordClass.ts is
absent) — compute the semitone fingerprint of the given interval set with
the same encoding used at registration and look it up; fail with a
no-matching-chord-class error if no registered pattern matches exactly. -/
def ChordClass.fromIntervals (intervals : List Int) : Except String ChordClass :=
  match mapGet? chordMap (fingerprintKey intervals) with
  | some cc => .ok cc
  | none => .error ("no matching chord class for intervals " ++ fingerprintKey intervals)

/-- Modelled from the spec: the PitchLike capability contract (PitchLike.ts
is absent) — transpose by an interval, print, and the signed interval from
one value to another (reduced mod 12 only for pitch classes). -/
class PitchLike (α : Type) where
  transposeBy : α → Int → α
  toStr : α → String
  between : α → α → Int

/-- Modelled from the spec: the PitchClass value object (its class file is
absent; the numeric helpers above are from PitchClass.ts) — an integer
normalized into `[0,12)`. -/
structure PitchClassV where
  semitones : Int
deriving DecidableEq

/-- Modelled from the spec: pitch-class transposition normalizes mod 12;
printing uses the sharp-name table; the interval between two pitch classes
is their difference reduced into `[0,12)`. -/
instance : PitchLike PitchClassV where
  transposeBy p i := ⟨normalizePitchClass (p.semitones + i)⟩
  toStr p := getPitchClassName p.semitones
  between a b := normalizePitchClass (b.semitones - a.semitones)

/-- Pitch transposition adds semitones (Pitch.transposeBy constructs a new
Pitch without a name, so the name is re-printed); the interval between two
pitches is the signed midi-number difference. -/
instance : PitchLike Pitch where
  transposeBy p i := Pitch.make (p.midiNumber + i)
  toStr p := p.name
  between a b := b.midiNumber - a.midiNumber

/-- Modelled from the spec: PitchClass.fromString for tonic binding —
letter+accidentals parsed and normalized into `[0,12)`. -/
def PitchClassV.fromString (name : String) : Except String PitchClassV :=
  (parsePitchClass name).map (fun v => ⟨v⟩)

/-- rotateArray from utils.ts via JS slice semantics:
`arr.slice(k).concat(arr.slice(0, k))`; for `k ≥ length` both slices clamp,
yielding the array unchanged, exactly as `List.drop`/`List.take` do. -/
def rotateArray {α : Type} (xs : List α) (k : Nat) : List α :=
  xs.drop k ++ xs.take k

/-- Embeds the Chord value object bound to a root. -/
structure Chord (α : Type) where
  chordClass : ChordClass
  root : α
  inversion : Nat
  intervals : List Int
  pitches : List α
deriving DecidableEq

/-- Embeds the Chord constructor: derive intervals and pitches from the
chord class and root, then, when the inversion is truthy (nonzero), rotate
both left by the inversion. The constructor performs no range check on the
numeric inversion. -/
def Chord.make {α : Type} [PitchLike α] (cc : ChordClass) (root : α)
    (inversion : Nat := 0) : Chord α :=
  let intervals := cc.intervals
  let pitches := cc.intervals.map (PitchLike.transposeBy root)
  if inversion ≠ 0 then
    ⟨cc, root, inversion, rotateArray intervals inversion, rotateArray pitches inversion⟩
  else ⟨cc, root, inversion, intervals, pitches⟩

/-- ChordClass.at: bind the class at a root, inversion defaulting to 0. -/
def ChordClass.atRoot {α : Type} [PitchLike α] (cc : ChordClass) (root : α)
    (inversion : Nat := 0) : Chord α :=
  Chord.make cc root inversion

/-- Chord name: root name, a space, and the chord-class canonical name. -/
def Chord.name {α : Type} [PitchLike α] (c : Chord α) : String :=
  PitchLike.toStr c.root ++ " " ++ c.chordClass.name

/-- inversionNames from chord.ts. -/
def inversionNames : List String := ["a", "c", "d"]

/-- Message of the unknown-inversion error. -/
def unknownInversionMsg (key : String) : String :=
  "Unknown inversion “" ++ key ++ "”"

/-- Embeds Chord.invert: a string key must be one of the inversion letters
(mapping a, c, d to inversions 1, 2, 3), else the unknown-inversion error;
a numeric key is passed through to the constructor unchecked. -/
def Chord.invert {α : Type} [PitchLike α] (c : Chord α) (key : Nat ⊕ String) :
    Except String (Chord α) :=
  match key with
  | .inr s =>
    match inversionNames.findIdx? (fun n => n == s) with
    | none => .error (unknownInversionMsg s)
    | some ix => .ok (Chord.make c.chordClass c.root (1 + ix))
  | .inl n => .ok (Chord.make c.chordClass c.root n)

/-- Embeds Chord.fromPitches: the first pitch is the root; compute the
interval from the root to every pitch and recognize the set via the
chord-class matcher, binding the result back at the root. An empty pitch
list (a JS crash on `pitches[0]`) is embedded as an error. -/
def Chord.fromPitches {α : Type} [PitchLike α] (pitches : List α) :
    Except String (Chord α) :=
  match pitches with
  | [] => .error "no pitches"
  | root :: _ =>
    let intervals := pitches.map (PitchLike.between root)
    (ChordClass.fromIntervals intervals).map (fun cc => cc.atRoot root)

/-- The scanner for chordNameRegex
`^([a-gA-G],*'*[#b♯♭𝄪𝄫]*(?:\d*))\s*(.*)$`: the root group (letter, commas,
apostrophes, accidentals, digits — the letter is mandatory), skipped
whitespace, and the chord-class-name remainder. -/
def chordNameScan (l : List Char) : Option (List Char × List Char) :=
  match l with
  | c :: rest =>
    if isNatLetter c then
      let (commas, r1) := rest.span (fun ch => ch == ',')
      let (apos, r2) := r1.span (fun ch => ch == apoChar)
      let (accs, r3) := r2.span isAccidentalChar
      let (digits, r4) := r3.span Char.isDigit
      let r5 := r4.dropWhile Char.isWhitespace
      some (c :: (commas ++ apos ++ accs ++ digits), r5)
    else none
  | [] => none

/-- Chord.fromString returns either a Chord (root given) or a bare
ChordClass (root group empty — unreachable, since the root group requires
its leading letter, but kept faithful to the source's branch). -/
inductive ChordOrClass where
  | chord (c : Chord Pitch)
  | cls (cc : ChordClass)
deriving DecidableEq

/-- Embeds Chord.fromString: match the chord-name regex (else the
not-a-chord-name error), look up the class name (defaulting to "Major"
when empty), and bind at the parsed root pitch when a root is present. -/
def chordFromString (name : String) : Except String ChordOrClass :=
  match chordNameScan name.toList with
  | none => .error ("“" ++ name ++ "” is not a chord name")
  | some (root, clsName) => do
    let cc ← ChordClass.fromString
      (if clsName.isEmpty then "Major" else String.mk clsName)
    if root.isEmpty then return .cls cc
    else do
      let p ← Pitch.fromString (String.mk root)
      return .chord (cc.atRoot p)

/-- A built-in scale entry (name, pitch classes, optional parent scale
name, mode names), as in the scaleMap literal. -/
structure ScaleSpec where
  name : String
  pitchClasses : List Int
  parent : Option String := none
  modeNames : List String := []
deriving DecidableEq

/-- The built-in scale table (scaleMap literal). -/
def scaleTable : List ScaleSpec :=
  [{ name := "Diatonic Major", pitchClasses := [0, 2, 4, 5, 7, 9, 11],
     modeNames := ["Ionian", "Dorian", "Phrygian", "Lydian", "Mixolydian",
                   "Aeolian", "Locrian"] },
   { name := "Natural Minor", pitchClasses := [0, 2, 3, 5, 7, 8, 10],
     parent := some "Diatonic Major" },
   { name := "Major Pentatonic", pitchClasses := [0, 2, 4, 7, 9],
     modeNames := ["Major Pentatonic", "Suspended Pentatonic", "Man Gong",
                   "Ritusen", "Minor Pentatonic"] },
   { name := "Minor Pentatonic", pitchClasses := [0, 3, 5, 7, 10],
     parent := some "Major Pentatonic" },
   { name := "Melodic Minor", pitchClasses := [0, 2, 3, 5, 7, 9, 11],
     modeNames := ["Jazz Minor", "Dorian b2", "Lydian Augmented",
                   "Lydian Dominant", "Mixolydian b6", "Semilocrian",
                   "Superlocrian"] },
   { name := "Harmonic Minor", pitchClasses := [0, 2, 3, 5, 7, 8, 11],
     modeNames := ["Harmonic Minor", "Locrian #6", "Ionian Augmented",
                   "Romanian", "Phrygian Dominant", "Lydian #2",
                   "Ultralocrian"] },
   { name := "Blues", pitchClasses := [0, 3, 5, 6, 7, 10] },
   { name := "Freygish", pitchClasses := [0, 1, 4, 5, 7, 8, 10] },
   { name := "Whole Tone", pitchClasses := [0, 2, 4, 6, 8, 10] },
   { name := "Octatonic", pitchClasses := [0, 2, 3, 5, 6, 8, 9, 11] }]

/-- Embeds rotatePitchClasses: reduce the rotation mod the length, rotate
left via slices, then subtract the new first element from every entry and
normalize mod 12. -/
def rotatePitchClasses (pcs : List Int) (i : Nat) : List Int :=
  let j := i % pcs.length
  let rotated := pcs.drop j ++ pcs.take j
  rotated.map (fun pc => normalizePitchClass (pc - rotated.headD 0))

/-- A derived mode: its name, the name of the deriving (parent) scale, and
its pitch-class sequence. -/
structure ModeData where
  name : String
  parentName : String
  pitchClasses : List Int
deriving DecidableEq

/-- Embeds the mode derivation in the GenericScale constructor: for mode
index `i` with mode name `modeNames[i]`, a Scale whose parent is this
scale and whose pitch classes are `rotatePitchClasses(pitchClasses, i)`. -/
def modesOf (s : ScaleSpec) : List ModeData :=
  s.modeNames.enum.map (fun p => ⟨p.2, s.name, rotatePitchClasses s.pitchClasses p.1⟩)

/-- Embeds Scale.fromString: lookup in the scale registry (populated once
from the scaleMap literal; names are distinct so association-list lookup
matches JS Map semantics). -/
def scaleFromString (name : String) : Except String ScaleSpec :=
  match scaleTable.find? (fun s => s.name == name) with
  | some s => .ok s
  | none => .error ("No scale named " ++ name)

/-- Embeds the Key value object: a scale bound to a tonic — the tonic (as
an Option, since the roman-numeral resolver guards on a missing tonic),
the scale's pitch classes, and the derived notes. -/
structure KeyModel (α : Type) where
  tonic : Option α
  pitchClasses : List Int
  notes : List α
deriving DecidableEq

/-- Embeds the Key constructor: notes = tonic transposed by each scale
interval. -/
def KeyModel.make {α : Type} [PitchLike α] (tonic : α) (pcs : List Int) :
    KeyModel α :=
  ⟨some tonic, pcs, pcs.map (PitchLike.transposeBy tonic)⟩

/-- Embeds Key.chords: for each scale degree `i`, rotate the pitch-class
sequence (without re-normalization) so degree `i` is first, take degrees
0, 2, 4 (and 6 with sevenths) of the rotated view, transpose each from the
fixed tonic, and recognize the pitch set via Chord.fromPitches. A missing
tonic or an out-of-range degree (JS crashes) are embedded as errors. -/
def keyChords {α : Type} [PitchLike α] (k : KeyModel α) (sevenths : Bool := false) :
    Except String (List (Chord α)) :=
  match k.tonic with
  | none => .error "key has no tonic"
  | some tonic =>
    let degrees : List Nat := if sevenths then [0, 2, 4, 6] else [0, 2, 4]
    (List.range k.pitchClasses.length).mapM (fun i => do
      let modePitches := k.pitchClasses.drop i ++ k.pitchClasses.take i
      let chordPitches ← degrees.mapM (fun d =>
        match modePitches[d]? with
        | some pc => Except.ok (PitchLike.transposeBy tonic pc)
        | none => Except.error "chord degree beyond scale length")
      Chord.fromPitches chordPitches)

/-- The scanner for the Key.fromString tonic regex
`^([a-gA-G][#b♯♭𝄪𝄫]*(?:\d*))\s*(.*)$`. -/
def keyNameScan (l : List Char) : Option (List Char × List Char) :=
  match l with
  | c :: rest =>
    if isNatLetter c then
      let (accs, r1) := rest.span isAccidentalChar
      let (digits, r2) := r1.span Char.isDigit
      let r3 := r2.dropWhile Char.isWhitespace
      some (c :: (accs ++ digits), r3)
    else none
  | [] => none

/-- Key.fromString returns a Key over a Pitch tonic when the tonic name has
a digit, else over a PitchClass tonic. -/
inductive KeyOver where
  | pitchKey (k : KeyModel Pitch)
  | pitchClassKey (k : KeyModel PitchClassV)
deriving DecidableEq

/-- Embeds Key.fromString composed with Scale.at / asPitchLike (the latter
Modelled from the spec: a tonic string containing a digit binds a Pitch,
otherwise a PitchClass): parse the tonic and scale names, look the scale
up (defaulting to "Diatonic Major"), and bind it at the tonic. -/
def keyFromString (name : String) : Except String KeyOver :=
  match keyNameScan name.toList with
  | none => .error ("No scale named " ++ name)
  | some (tonicName, scaleName) => do
    let scale ← scaleFromString
      (if scaleName.isEmpty then "Diatonic Major" else String.mk scaleName)
    if tonicName.any Char.isDigit then do
      let p ← Pitch.fromString (String.mk tonicName)
      return .pitchKey (KeyModel.make p scale.pitchClasses)
    else do
      let pc ← PitchClassV.fromString (String.mk tonicName)
      return .pitchClassKey (KeyModel.make pc scale.pitchClasses)

/-- The chord names produced by `Key.fromString(...).chords()`, for the
concrete scenario claims. -/
def keyChordNamesFromString (name : String) : Except String (List String) := do
  match ← keyFromString name with
  | .pitchKey k => (keyChords k).map (fun cs => cs.map Chord.name)
  | .pitchClassKey k => (keyChords k).map (fun cs => cs.map Chord.name)

/-- chordRomanNumerals from chordProgressions.ts. -/
def chordRomanNumerals : List String := ["I", "II", "III", "IV", "V", "VI", "VII"]

/-- romanNumeralModifiers from chordProgressions.ts. -/
def romanNumeralModifiers : List (String × String) :=
  [("+", "aug"), ("°", "dim"), ("6", "maj6"), ("7", "dom7"),
   ("+7", "+7"), ("°7", "°7"), ("ø7", "ø7")]

/-- The leading `(♭?)` group: strip one leading flat sign. -/
def stripFlat (l : List Char) : Bool × List Char :=
  match l with
  | c :: r => if c = flatChar then (true, r) else (false, c :: r)
  | [] => (false, [])

/-- The `(i+v?|vi*)` group with the `i` flag, matched greedily: a run of
i/I optionally followed by one v/V, or one v/V followed by a run of i/I.
Returns the numeral characters and the unconsumed rest. -/
def parseNumeral (l : List Char) : Option (List Char × List Char) :=
  match l with
  | c :: r =>
    if c.toLower = 'i' then
      let (is, r2) := l.span (fun ch => ch.toLower == 'i')
      match r2 with
      | v :: r3 => if v.toLower = 'v' then some (is ++ [v], r3) else some (is, r2)
      | [] => some (is, [])
    else if c.toLower = 'v' then
      let (is, r2) := r.span (fun ch => ch.toLower == 'i')
      some (c :: is, r2)
    else none
  | [] => none

/-- The trailing `(.*?)([acd]?)$` groups (with the `i` flag): the lazy
middle plus the optional inversion letter resolve to taking the last
character as the inversion when it is in `[acd]` (either case), leaving
the rest as the modifier string. -/
def splitModsInv (l : List Char) : List Char × Option Char :=
  match l.getLast? with
  | some c =>
    if c.toLower = 'a' || c.toLower = 'c' || c.toLower = 'd' then
      (l.dropLast, some c)
    else (l, none)
  | none => ([], none)

/-- The full roman-numeral token scan
`^(♭?)(i+v?|vi*)(.*?)([acd]?)$/i`: flat flag, numeral, modifiers,
inversion letter. -/
def romanScan (l : List Char) : Option (Bool × List Char × List Char × Option Char) :=
  match parseNumeral (stripFlat l).2 with
  | none => none
  | some (numeral, tail) =>
    some ((stripFlat l).1, numeral, (splitModsInv tail).1, (splitModsInv tail).2)

/-- Message of the not-a-roman-numeral error. -/
def notRomanMsg (name : String) : String :=
  "“" ++ name ++ "” is not a chord roman numeral"

/-- Message of the mixed-case-numeral error (built without a literal
apostrophe character). -/
def mixedCaseMsg (numeral : String) : String :=
  "Roman numeral chords can" ++ String.singleton apoChar ++
    "t be mixed case in “" ++ numeral ++ "”"

/-- Message of the unknown-chord-modifier error. -/
def unknownModMsg (mods : String) : String :=
  "unknown chord modifier “" ++ mods ++ "”"

/-- The major/minor inference from the numeral's case: uniformly upper is
Major, uniformly lower is Minor, otherwise the mixed-case error. -/
def caseQuality (numeral : List Char) : Except String String :=
  if numeral.map Char.toUpper = numeral then .ok "Major"
  else if numeral.map Char.toLower = numeral then .ok "Minor"
  else .error (mixedCaseMsg (String.mk numeral))

/-- Modifier-suffix override of the inferred quality. -/
def modQuality (mods : List Char) (base : String) : Except String String :=
  if mods.isEmpty then .ok base
  else
    match romanNumeralModifiers.find? (fun p => p.1 == String.mk mods) with
    | some p => .ok p.2
    | none => .error (unknownModMsg (String.mk mods))

/-- The resolver body after the regex match, embedding
chordFromRomanNumeral from the tonic check on: degree = index of the
upper-cased numeral (else the not-a-chord-name error), quality from case
and modifiers, chord class looked up and bound at the degree's pitch
(`scale.pitches[degree]`, Modelled from the spec: the Key's notes array —
the resolver's own Scale type is absent from the sources; an out-of-range
degree, a JS crash, is embedded as an error), then the inversion letter
applied via Chord.invert. The parsed flat flag is not consulted. -/
def resolveNumeral {α : Type} [PitchLike α] (k : KeyModel α)
    (numeral mods : List Char) (inv : Option Char) : Except String (Chord α) :=
  if k.tonic.isNone then .error "requires a scale with a tonic"
  else
    match chordRomanNumerals.findIdx?
        (fun s => s == String.mk (numeral.map Char.toUpper)) with
    | none => .error "Not a chord name"
    | some degree =>
      match caseQuality numeral with
      | .error e => .error e
      | .ok base =>
        match modQuality mods base with
        | .error e => .error e
        | .ok chordType =>
          match ChordClass.fromString chordType with
          | .error e => .error e
          | .ok cc =>
            match k.notes[degree]? with
            | none => .error "no pitch at degree"
            | some p =>
              match inv with
              | none => .ok (cc.atRoot p)
              | some ch => (cc.atRoot p).invert (.inr (String.singleton ch))

/-- Embeds chordFromRomanNumeral: scan the token (else the parse error),
discard the flat capture (the source's dead store), and resolve. -/
def chordFromRomanNumeral {α : Type} [PitchLike α] (k : KeyModel α)
    (name : String) : Except String (Chord α) :=
  match romanScan name.toList with
  | none => .error (notRomanMsg name)
  | some (_, numeral, mods, inv) => resolveNumeral k numeral mods inv

/-- The "E Diatonic Major" key with its PitchClass tonic, extracted from
keyFromString for the concrete scenario claims. -/
def eMajorKey : KeyModel PitchClassV :=
  match keyFromString "E Diatonic Major" with
  | .ok (.pitchClassKey k) => k
  | _ => ⟨none, [], []⟩

/-- The built-in Major chord class after name canonicalization. -/
def majorChordClass : ChordClass :=
  ⟨"Major", "Major", ["", "M"], [0, 4, 7]⟩

/-- The built-in Minor chord class after name canonicalization. -/
def minorChordClass : ChordClass :=
  ⟨"Minor", "Minor", ["m"], [0, 3, 7]⟩

/-- The spec's mode formula, phrased independently of the source's
rotatePitchClasses: rotate the sequence left by `i` (library rotation),
then subtract the new first element from every entry and normalize mod 12. -/
def modeSpecSeq (pcs : List Int) (i : Nat) : List Int :=
  (pcs.rotateLeft i).map (fun pc => normalizePitchClass (pc - (pcs.rotateLeft i).headD 0))

set_option maxRecDepth 20000

lemma takeWhile_all_append (p : Char → Bool) (l r : List Char)
    (h1 : l.all p = true) (h2 : ∀ c, r.head? = some c → p c = false) :
    (l ++ r).takeWhile p = l := by
  induction l with
  | nil =>
    cases r with
    | nil => rfl
    | cons a t => simp [List.takeWhile_cons, h2 a rfl]
  | cons c cs ih =>
    simp only [List.all_cons, Bool.and_eq_true] at h1
    simp [List.takeWhile_cons, h1.1, ih h1.2]

lemma dropWhile_all_append (p : Char → Bool) (l r : List Char)
    (h1 : l.all p = true) (h2 : ∀ c, r.head? = some c → p c = false) :
    (l ++ r).dropWhile p = r := by
  induction l with
  | nil =>
    cases r with
    | nil => rfl
    | cons a t => simp [List.dropWhile_cons, h2 a rfl]
  | cons c cs ih =>
    simp only [List.all_cons, Bool.and_eq_true] at h1
    simp [List.dropWhile_cons, h1.1, ih h1.2]

lemma span_all_append (p : Char → Bool) (l r : List Char)
    (h1 : l.all p = true) (h2 : ∀ c, r.head? = some c → p c = false) :
    (l ++ r).span p = (l, r) := by
  rw [List.span_eq_take_drop, takeWhile_all_append p l r h1 h2,
    dropWhile_all_append p l r h1 h2]

lemma all_replicate_self (c : Char) (n : Nat) (p : Char → Bool) (hc : p c = true) :
    (List.replicate n c).all p = true := by
  induction n with
  | zero => rfl
  | succ i ih => simp [List.replicate_succ, List.all_cons, hc, ih]

lemma parsePCList_letter_accs (L : Char) (accs : List Char)
    (hL : isNatLetter L = true) (ha : accs.all isAccidentalChar = true) :
    parsePCList (L :: accs) false = .ok (letterIndex L + sumAccs accs) := by
  have hsp : accs.span isAccidentalChar = (accs, []) := by
    have := span_all_append isAccidentalChar accs [] ha (fun c hc => by cases hc)
    rwa [List.append_nil] at this
  have h0 : parsePCList (L :: accs) false = parsePCCore L accs (L :: accs) false := rfl
  rw [h0]
  simp only [parsePCCore, hL, if_true, hsp, List.isEmpty_nil, ite_true,
    Bool.false_eq_true, if_false]

lemma resolveNumeral_quality (k : KeyModel PitchClassV) (t p : PitchClassV)
    (numeral : List Char) (d : Nat) (q : String) (cc : ChordClass)
    (hton : k.tonic = some t)
    (hidx : chordRomanNumerals.findIdx?
      (fun s => s == String.mk (numeral.map Char.toUpper)) = some d)
    (hq : caseQuality numeral = .ok q)
    (hcc : ChordClass.fromString q = .ok cc)
    (hget : k.notes[d]? = some p) :
    resolveNumeral k numeral [] none = .ok (Chord.make cc p 0) := by
  have hn : k.tonic.isNone = false := by rw [hton]; rfl
  simp only [resolveNumeral, hn, Bool.false_eq_true, if_false, hidx, hq,
    modQuality, List.isEmpty_nil, ite_true, hcc, hget]
  rfl

/-- C1 (corrected): round trip of printing then parsing scientific
notation returns the input value for every midi number whose printed
octave is non-negative, here all of `[12, 128)`; printing uses
octave = floor(n/12) - 1 and the sharp-name table at `n mod 12`.
(For `n < 12` the printed octave is negative and the parser rejects it —
see the counterexample.) -/
theorem C1_sci_round_trip (n : Nat) (h1 : n < 128) (h2 : 12 ≤ n) :
    pitchFromScientific (pitchToScientific n) = .ok (n : Int) := by
  revert h2
  revert n
  decide

/-- C1 witness: the round trip at the concrete midi number 60. -/
theorem C1_sci_round_trip_witness :
    60 < 128 ∧ 12 ≤ 60 ∧ pitchFromScientific (pitchToScientific 60) = .ok 60 :=
  ⟨by decide, by decide, C1_sci_round_trip 60 (by decide) (by decide)⟩

/-- C1 counterexample: at the valid midi number 0 the printed scientific
notation is "C-1", whose negative octave the scientific grammar `(\d+)$`
rejects, so the round trip claimed for all of `[0, 128)` fails. -/
theorem C1_sci_round_trip_cex :
    pitchToScientific 0 = "C-1" ∧
    pitchFromScientific "C-1" = .error (sciErrMsg "C-1") := by decide

/-- C2 (confirmed): `Key.fromString("E Diatonic Major").chords()` returns
exactly seven chords named, in order, E Major, F♯ Minor, G♯ Minor,
A Major, B Major, C♯ Minor, D♯ Dim; each degree's triad takes degrees
0, 2, 4 of the un-renormalized rotation of the pitch-class sequence,
transposes them from the fixed tonic, and is recognized via
Chord.fromPitches (see `keyChords`). -/
theorem C2_e_major_diatonic_chords :
    keyChordNamesFromString "E Diatonic Major" =
      .ok ["E Major", "F♯ Minor", "G♯ Minor", "A Major", "B Major",
           "C♯ Minor", "D♯ Dim"] := by
  decide

/-- C3 (corrected): for every input assembled from the Helmholtz grammar —
letter, accidental run, `k` commas, `m` apostrophes — the parsed value is
`12 * (4 - u - k + m) + p` with `p` the unnormalized pitch class of the
letter plus summed accidentals, and `u = 1` exactly when the whole
letter-plus-accidentals portion equals its own upper-casing (the letter is
upper case and no flat is spelled with the letter `b`) — not, as the claim
stated, whenever the letter alone is upper case (see the
counterexample). -/
theorem C3_helmholtz_value (L : Char) (accs : List Char) (k m : Nat)
    (hL : isNatLetter L = true) (ha : accs.all isAccidentalChar = true) :
    pitchFromHelmholtz
        (String.mk (L :: (accs ++ List.replicate k ',' ++ List.replicate m apoChar))) =
      .ok (12 * (4 - (if allUpper (L :: accs) then (1 : Int) else 0) - (k : Int) + (m : Int))
           + (letterIndex L + sumAccs accs)) := by
  have hsp1 : ((accs ++ (List.replicate k ',' ++ List.replicate m apoChar)).span
      isAccidentalChar) = (accs, List.replicate k ',' ++ List.replicate m apoChar) := by
    apply span_all_append _ _ _ ha
    intro c hc
    cases k with
    | succ k2 =>
      simp [List.replicate_succ] at hc
      rw [← hc]
      decide
    | zero =>
      cases m with
      | zero => cases hc
      | succ m2 =>
        simp [List.replicate_succ] at hc
        rw [← hc]
        decide
  have hsp2 : ((List.replicate k ',' ++ List.replicate m apoChar).span
      (fun ch => ch == ',')) = (List.replicate k ',', List.replicate m apoChar) := by
    apply span_all_append _ _ _ (all_replicate_self _ _ _ (by decide))
    intro c hc
    cases m with
    | zero => cases hc
    | succ m2 =>
      simp [List.replicate_succ] at hc
      rw [← hc]
      decide
  have hsp3 : ((List.replicate m apoChar).span (fun ch => ch == apoChar)) =
      (List.replicate m apoChar, []) := by
    have := span_all_append (fun ch => ch == apoChar) (List.replicate m apoChar) []
      (all_replicate_self _ _ _ (by decide)) (fun c hc => by cases hc)
    rwa [List.append_nil] at this
  have hpc := parsePCList_letter_accs L accs hL ha
  have h0 : pitchFromHelmholtz
      (String.mk (L :: (accs ++ List.replicate k ',' ++ List.replicate m apoChar))) =
      helmholtzCore L (accs ++ List.replicate k ',' ++ List.replicate m apoChar)
        (String.mk (L :: (accs ++ List.replicate k ',' ++ List.replicate m apoChar))) := rfl
  rw [h0, List.append_assoc]
  simp only [helmholtzCore, hL, if_true, hsp1, hsp2, hsp3, hpc,
    List.length_replicate, List.isEmpty_nil, ite_true]

/-- C3 witness: the formula at the concrete input C♯ with one comma and
two apostrophes, value 49. -/
theorem C3_helmholtz_value_witness :
    isNatLetter 'C' = true ∧ (['♯'].all isAccidentalChar) = true ∧
    pitchFromHelmholtz
        (String.mk ('C' :: (['♯'] ++ List.replicate 1 ',' ++ List.replicate 2 apoChar))) =
      .ok 49 :=
  ⟨by decide, by decide, C3_helmholtz_value 'C' ['♯'] 1 2 (by decide) (by decide)⟩

/-- C3 counterexample: for "Cb" (upper-case letter, flat spelled `b`) the
code upper-cases the whole portion, so u = 0 and the value is 47, while
the claim's letter-case rule predicts u = 1 and the value 35. -/
theorem C3_helmholtz_value_cex :
    pitchFromHelmholtz "Cb" = .ok 47 ∧
    (12 * (4 - 1 - 0 + 0) + (letterIndex 'C' + sumAccs ['b']) : Int) = 35 ∧
    (47 : Int) ≠ 35 := by decide

/-- C4 (corrected): inverting with a letter other than a, c, d fails with
an error naming the letter, and a, c, d map to inversions 1, 2, 3; but a
numeric inversion is never range-checked — `invert` and the constructor
accept any numeric inversion (see the counterexample), contrary to the
claimed `[0, intervals.length)` validation. -/
theorem C4_inversion_validation :
    (∀ s : String, s ∉ inversionNames →
      (Chord.make majorChordClass (⟨4⟩ : PitchClassV) 0).invert (.inr s) =
        .error (unknownInversionMsg s)) ∧
    ((Chord.make majorChordClass (⟨4⟩ : PitchClassV) 0).invert (.inr "a")).map
      Chord.inversion = .ok 1 ∧
    ((Chord.make majorChordClass (⟨4⟩ : PitchClassV) 0).invert (.inr "c")).map
      Chord.inversion = .ok 2 ∧
    ((Chord.make majorChordClass (⟨4⟩ : PitchClassV) 0).invert (.inr "d")).map
      Chord.inversion = .ok 3 ∧
    ∀ n : Nat, ((Chord.make majorChordClass (⟨4⟩ : PitchClassV) 0).invert (.inl n)).isOk
      = true := by
  refine ⟨?_, by decide, by decide, by decide, fun n => rfl⟩
  intro s hs
  simp only [inversionNames, List.mem_cons, List.not_mem_nil, or_false, not_or] at hs
  obtain ⟨h1, h2, h3⟩ := hs
  have ha : (("a" : String) == s) = false := beq_eq_false_iff_ne.mpr (Ne.symm h1)
  have hb : (("c" : String) == s) = false := beq_eq_false_iff_ne.mpr (Ne.symm h2)
  have hc : (("d" : String) == s) = false := beq_eq_false_iff_ne.mpr (Ne.symm h3)
  simp [Chord.invert, inversionNames, List.findIdx?_cons, List.findIdx?_nil, ha, hb, hc]

/-- C4 witness: the unknown letter "x" is rejected with the error naming
it, and the out-of-range numeric inversion 5 is accepted. -/
theorem C4_inversion_validation_witness :
    ("x" : String) ∉ inversionNames ∧
    (Chord.make majorChordClass (⟨4⟩ : PitchClassV) 0).invert (.inr "x") =
      .error (unknownInversionMsg "x") ∧
    ((Chord.make majorChordClass (⟨4⟩ : PitchClassV) 0).invert (.inl 5)).isOk = true :=
  ⟨by decide, C4_inversion_validation.1 "x" (by decide),
   C4_inversion_validation.2.2.2.2 5⟩

/-- C4 counterexample: on a three-interval chord the numeric inversion 5,
outside `[0, 3)`, is accepted both through `invert` and directly through
the constructor — no invalid-inversion error is raised. -/
theorem C4_inversion_validation_cex :
    majorChordClass.intervals.length = 3 ∧
    ((Chord.make majorChordClass (⟨4⟩ : PitchClassV) 0).invert (.inl 5)).isOk = true ∧
    (Chord.make majorChordClass (⟨4⟩ : PitchClassV) 5).inversion = 5 := by decide

/-- C5 (corrected): after initialization every built-in ChordClass is
retrievable from the global registry under each of its NON-EMPTY keys —
name, full name, abbreviations, comma-joined fingerprint — and each such
key maps to that ChordClass; the claim's "every abbreviation" fails for
the Major class's empty abbreviation, which the `if (key)` guard skips
(see the counterexample). -/
theorem C5_registry_alias_coverage :
    ∀ cc ∈ chordClassArray, ∀ k ∈ chordKeys cc, k ≠ "" →
      mapGet? chordMap k = some cc := by decide

/-- C5 witness: the Major class is retrievable under its abbreviation "M". -/
theorem C5_registry_alias_coverage_witness :
    majorChordClass ∈ chordClassArray ∧ "M" ∈ chordKeys majorChordClass ∧
    mapGet? chordMap "M" = some majorChordClass :=
  ⟨by decide, by decide,
   C5_registry_alias_coverage majorChordClass (by decide) "M" (by decide) (by decide)⟩

/-- C5 counterexample: the Major class's abbreviation list contains the
empty string, but the registry holds nothing under that key. -/
theorem C5_registry_alias_coverage_cex :
    "" ∈ majorChordClass.abbrs ∧ majorChordClass ∈ chordClassArray ∧
    mapGet? chordMap "" = none := by decide

/-- C6 (confirmed): for every Key with a tonic (and a note at the degree),
a uniformly upper-case numeral resolves to a Major-quality chord at the
degree's note and its uniformly lower-case form to Minor; the mixed-case
numeral "Iv" fails with the explicit mixed-case error; and
`Key.fromString("E Diatonic Major").fromRomanNumeral("V")` resolves to
B Major. -/
theorem C6_roman_case_rule :
    (∀ (k : KeyModel PitchClassV) (t p : PitchClassV) (d : Nat),
      k.tonic = some t → d < 7 → k.notes[d]? = some p →
      chordFromRomanNumeral k (chordRomanNumerals.getD d "") =
        .ok (Chord.make majorChordClass p 0) ∧
      chordFromRomanNumeral k
          (String.mk ((chordRomanNumerals.getD d "").toList.map Char.toLower)) =
        .ok (Chord.make minorChordClass p 0)) ∧
    chordFromRomanNumeral eMajorKey "Iv" = .error (mixedCaseMsg "Iv") ∧
    (chordFromRomanNumeral eMajorKey "V").map Chord.name = .ok "B Major" := by
  refine ⟨?_, by decide, by decide⟩
  intro k t p d hton hd hget
  interval_cases d
  · exact ⟨resolveNumeral_quality k t p ['I'] 0 "Major" majorChordClass hton
        (by decide) (by decide) (by decide) hget,
      resolveNumeral_quality k t p ['i'] 0 "Minor" minorChordClass hton
        (by decide) (by decide) (by decide) hget⟩
  · exact ⟨resolveNumeral_quality k t p ['I', 'I'] 1 "Major" majorChordClass hton
        (by decide) (by decide) (by decide) hget,
      resolveNumeral_quality k t p ['i', 'i'] 1 "Minor" minorChordClass hton
        (by decide) (by decide) (by decide) hget⟩
  · exact ⟨resolveNumeral_quality k t p ['I', 'I', 'I'] 2 "Major" majorChordClass hton
        (by decide) (by decide) (by decide) hget,
      resolveNumeral_quality k t p ['i', 'i', 'i'] 2 "Minor" minorChordClass hton
        (by decide) (by decide) (by decide) hget⟩
  · exact ⟨resolveNumeral_quality k t p ['I', 'V'] 3 "Major" majorChordClass hton
        (by decide) (by decide) (by decide) hget,
      resolveNumeral_quality k t p ['i', 'v'] 3 "Minor" minorChordClass hton
        (by decide) (by decide) (by decide) hget⟩
  · exact ⟨resolveNumeral_quality k t p ['V'] 4 "Major" majorChordClass hton
        (by decide) (by decide) (by decide) hget,
      resolveNumeral_quality k t p ['v'] 4 "Minor" minorChordClass hton
        (by decide) (by decide) (by decide) hget⟩
  · exact ⟨resolveNumeral_quality k t p ['V', 'I'] 5 "Major" majorChordClass hton
        (by decide) (by decide) (by decide) hget,
      resolveNumeral_quality k t p ['v', 'i'] 5 "Minor" minorChordClass hton
        (by decide) (by decide) (by decide) hget⟩
  · exact ⟨resolveNumeral_quality k t p ['V', 'I', 'I'] 6 "Major" majorChordClass hton
        (by decide) (by decide) (by decide) hget,
      resolveNumeral_quality k t p ['v', 'i', 'i'] 6 "Minor" minorChordClass hton
        (by decide) (by decide) (by decide) hget⟩

/-- C6 witness: degree V of the E-major key resolves to B Major, and v to
B Minor. -/
theorem C6_roman_case_rule_witness :
    eMajorKey.tonic = some ⟨4⟩ ∧ (4 : Nat) < 7 ∧ eMajorKey.notes[4]? = some ⟨11⟩ ∧
    chordFromRomanNumeral eMajorKey "V" = .ok (Chord.make majorChordClass ⟨11⟩ 0) ∧
    chordFromRomanNumeral eMajorKey (String.mk ("V".toList.map Char.toLower)) =
      .ok (Chord.make minorChordClass ⟨11⟩ 0) :=
  ⟨by decide, by decide, by decide,
   (C6_roman_case_rule.1 eMajorKey ⟨4⟩ ⟨11⟩ 4 (by decide) (by decide) (by decide)).1,
   (C6_roman_case_rule.1 eMajorKey ⟨4⟩ ⟨11⟩ 4 (by decide) (by decide) (by decide)).2⟩

/-- C7 (corrected): for every token that resolves successfully and does not
itself begin with a flat sign, prefixing a flat sign resolves to the very
same chord — the parsed flat marker is never applied; the restriction is
forced by tokens already carrying a flat, for which a second flat makes the
token unparsable (see the counterexample). -/
theorem C7_flat_unapplied (k : KeyModel PitchClassV) (s : String) (c : Chord PitchClassV)
    (hhead : s.toList.head? ≠ some flatChar)
    (h : chordFromRomanNumeral k s = .ok c) :
    chordFromRomanNumeral k (String.singleton flatChar ++ s) = .ok c := by
  have h1 : (String.singleton flatChar ++ s).toList = flatChar :: s.toList := rfl
  have e1 : (stripFlat (flatChar :: s.toList)).2 = s.toList := by
    simp [stripFlat]
  have e2 : (stripFlat s.toList).2 = s.toList := by
    cases hsl : s.toList with
    | nil => rfl
    | cons a t =>
      have hne : a ≠ flatChar := by
        intro he
        exact hhead (by rw [hsl, he]; rfl)
      simp [stripFlat, hne]
  unfold chordFromRomanNumeral romanScan at h ⊢
  rw [h1, e1]
  rw [e2] at h
  cases hp : parseNumeral s.toList with
  | none => rw [hp] at h; cases h
  | some pr =>
    simp only [hp] at h ⊢
    exact h

/-- C7 witness: prefixing a flat to "V" in the E-major key yields exactly
the chord "V" resolves to. -/
theorem C7_flat_unapplied_witness :
    "V".toList.head? ≠ some flatChar ∧
    chordFromRomanNumeral eMajorKey "V" = .ok (Chord.make majorChordClass ⟨11⟩ 0) ∧
    chordFromRomanNumeral eMajorKey (String.singleton flatChar ++ "V") =
      .ok (Chord.make majorChordClass ⟨11⟩ 0) :=
  ⟨by decide, by decide,
   C7_flat_unapplied eMajorKey "V" (Chord.make majorChordClass ⟨11⟩ 0)
     (by decide) (by decide)⟩

/-- C7 counterexample: the token "♭V" resolves successfully, but its
flat-prefixed form "♭♭V" does not — the grammar admits at most one leading
flat, so the claim quantified over every successfully resolving token
fails. -/
theorem C7_flat_unapplied_cex :
    (chordFromRomanNumeral eMajorKey "♭V").isOk = true ∧
    (chordFromRomanNumeral eMajorKey "♭♭V").isOk = false := by decide

/-- C8 (confirmed): every built-in scale constructed with mode names has
exactly as many derived modes as pitch classes; mode i's sequence is the
parent's sequence rotated left by i with the new first element subtracted
and each entry normalized mod 12, so it starts at 0 and keeps the length;
and each mode's parent is the originating scale. -/
theorem C8_mode_derivation :
    scaleTable.all (fun s =>
      s.modeNames.isEmpty ||
      ((modesOf s).length == s.pitchClasses.length &&
       (modesOf s).all (fun m =>
          m.parentName == s.name &&
          m.pitchClasses.length == s.pitchClasses.length &&
          m.pitchClasses.headD 1 == 0) &&
       (List.range (modesOf s).length).all (fun i =>
          ((modesOf s).getD i ⟨"", "", []⟩).pitchClasses ==
            modeSpecSeq s.pitchClasses i))) = true := by
  decide

/-- C9 (code bug): the chord-name grammar's root portion is declared
optional and the function's own doc comment promises a bare chord-class
name returns the ChordClass, but the implemented regex makes the root's
letter mandatory, so `Chord.fromString("Major")` throws the
not-a-chord-name error; with a root, "E Major" correctly returns a Chord
bound at E. -/
theorem C9_bare_class_name :
    chordFromString "Major" = .error "“Major” is not a chord name" ∧
    (match chordFromString "E Major" with
     | .ok (.chord c) => some (c.root.name, c.chordClass.name)
     | _ => none) = some ("E", "Major") := by decide

/-- C10 (confirmed): every string accepted by Pitch.fromString is stored
as the pitch's name and printed back verbatim, so the string-level
parse/print round trip is the identity on accepted inputs. -/
theorem C10_pitch_name_preserved (s : String) (p : Pitch)
    (h : Pitch.fromString s = .ok p) : Pitch.toStr p = s := by
  by_cases hs : s = ""
  · subst hs
    have he : Pitch.fromString "" = .error (helmErrMsg "") := rfl
    rw [he] at h
    cases h
  · unfold Pitch.fromString at h
    cases hp : (if s.toList.any Char.isDigit then pitchFromScientific s
        else pitchFromHelmholtz s) with
    | error e => rw [hp] at h; cases h
    | ok m =>
      rw [hp] at h
      simp only [Except.map] at h
      cases h
      simp [Pitch.make, Pitch.toStr, hs]

/-- C10 witness: "E4" parses to midi 64 and prints back as "E4". -/
theorem C10_pitch_name_preserved_witness :
    Pitch.fromString "E4" = .ok (Pitch.mk 64 "E4") ∧
    Pitch.toStr (Pitch.mk 64 "E4") = "E4" :=
  ⟨by decide, C10_pitch_name_preserved "E4" (Pitch.mk 64 "E4") (by decide)⟩
